import Mathlib

/-
Verification development for the bmodel disassembler/diff tool:
  * `src/python/debugger/context.py` (device context, tensor→memref, runner binding)
  * `src/python/tools/bmodel_dis.py` (conversion pipeline, unified diff, CLI driver)

Pure Python functions are embedded as Lean functions; fallible Python code
(assertions, `raise`) is embedded with `Except`; Python's process-shared,
mutable state (the `functools.lru_cache` on `Context.decoder`, and the
class-level `compute`/`data` bindings installed by `get_runner`) is embedded
as explicit state passing.
-/

namespace TpuMlir

/-! ## Device registry and `Context.__init__` (context.py lines 21-45)

`class Device(Enum): BM1684X = "BM1684X"; BM1684 = "BM1684"`.
`Context.__init__` converts its argument with `Device(device)` (a by-value
enum lookup, raising `ValueError` on a non-member), then branches on the
resolved member to select the opcode-definition and operand-layout modules,
with a final `else: raise ValueError(f"Unknown device: ...")`. -/

inductive Device where
  | BM1684X
  | BM1684
deriving DecidableEq, Repr

/-- `Device(device)`: by-value lookup of the enum member.  The callers in
`bmodel_dis.py` pass the device as a string (the chip field of the container,
or an upper-cased CLI argument), so the argument is embedded as a `String`. -/
def parseDevice (s : String) : Option Device :=
  if s = "BM1684X" then some Device.BM1684X
  else if s = "BM1684" then some Device.BM1684
  else none

/-- The opcode-definition modules that the two branches of
`Context.__init__` pull in (`opdef_1684x` / `opdef_1684`). -/
inductive OpdefModule where
  | opdef_1684x
  | opdef_1684
deriving DecidableEq, Repr

/-- The operand-layout modules that the two branches of
`Context.__init__` pull in (`opparam_1684x` / `opparam_1684`). -/
inductive OpparamModule where
  | opparam_1684x
  | opparam_1684
deriving DecidableEq, Repr

/-- The `memmap` objects of the two operand-layout modules (opaque to this
layer; `Context.memmap` just passes one of them through). -/
inductive MemmapObj where
  | memmap_1684x
  | memmap_1684
deriving DecidableEq, Repr

/-- The `MemRef` classes of the two operand-layout modules (opaque to this
layer; `Context.MemRef` just passes one of them through). -/
inductive MemRefClass where
  | memref_1684x
  | memref_1684
deriving DecidableEq, Repr

def OpparamModule.memmap : OpparamModule → MemmapObj
  | .opparam_1684x => .memmap_1684x
  | .opparam_1684 => .memmap_1684

def OpparamModule.MemRefCls : OpparamModule → MemRefClass
  | .opparam_1684x => .memref_1684x
  | .opparam_1684 => .memref_1684

/-- The registry selection the spec describes: which operand-layout module
belongs to which device. -/
def registryOpparam : Device → OpparamModule
  | .BM1684X => .opparam_1684x
  | .BM1684 => .opparam_1684

/-- The registry selection for the opcode-definition module. -/
def registryOpdef : Device → OpdefModule
  | .BM1684X => .opdef_1684x
  | .BM1684 => .opdef_1684

structure Context where
  device : Device
  opdef : OpdefModule
  opparam : OpparamModule
deriving DecidableEq, Repr

/-- The two ways `Context.__init__` can fail: `Device(device)` raising
`ValueError` on a non-member, and the final `else` branch raising
`ValueError(f"Unknown device: ...")`. -/
inductive InitError where
  | conversion (arg : String)
  | unknownDevice (arg : String)
deriving DecidableEq, Repr

/-- `Context.__init__` (context.py lines 29-45): convert the argument with
`Device(device)`, then branch on the member; the final `else` raises
`Unknown device`. -/
def Context.init (s : String) : Except InitError Context :=
  match parseDevice s with
  | none => .error (.conversion s)
  | some d =>
    if d = Device.BM1684X then
      .ok ⟨d, .opdef_1684x, .opparam_1684x⟩
    else if d = Device.BM1684 then
      .ok ⟨d, .opdef_1684, .opparam_1684⟩
    else
      .error (.unknownDevice s)

/-- `Context.memmap` property: `return self.opparam.memmap`. -/
def Context.memmap (c : Context) : MemmapObj := c.opparam.memmap

/-- `Context.MemRef` property: `return self.opparam.MemRef`. -/
def Context.MemRefCls (c : Context) : MemRefClass := c.opparam.MemRefCls

/-! ## `Context.tensor2memref` (context.py lines 102-120)

The pieces it uses from `op_support` (a module of this repository that is not
under `src/`) are embedded abstractly: the element type only through its
byte size, and `get_continuous_stride` as an arbitrary function parameter. -/

/-- Models `op_support.DType(tensor.dtype)`: the only use this layer makes of
the resolved dtype object is its `itemsize` (element byte size). -/
structure DTypeInfo where
  itemsize : Nat
deriving DecidableEq, Repr

/-- Models `op_support.Layout`: only the `continuous_XN` member is used here. -/
inductive Layout where
  | continuous_XN
deriving DecidableEq, Repr

/-- A container tensor descriptor, as read by `tensor2memref`:
`pad_h`, `dtype` (already resolved to its byte size), `st_mode`,
`shape[0]`, `device_addr`. -/
structure TensorDesc where
  pad_h : Nat
  dtype : DTypeInfo
  st_mode : Nat
  shape : List Nat
  device_addr : Nat
deriving DecidableEq, Repr

/-- The `MemRef` object constructed at the end of `tensor2memref`
(address, shape, dtype, stride, layout). -/
structure MemRefObj where
  addr : Nat
  shape : List Nat
  dtype : DTypeInfo
  stride : List Nat
  layout : Option Layout
deriving DecidableEq, Repr

/-- `Context.tensor2memref` (context.py lines 102-120).  `gcs` stands for
`op_support.get_continuous_stride` (repository code not under `src/`),
passed in abstractly; the multiplication `stride * xn` is numpy's
element-wise scalar multiplication.  Failed `assert`s are embedded as
`Except.error`. -/
def Context.tensor2memref (gcs : List Nat → List Nat) (c : Context) (t : TensorDesc) :
    Except String MemRefObj :=
  if t.pad_h ≠ 0 then .error "Not supports pad_h."
  else
    let dtype := t.dtype
    if t.st_mode = 1 ∨ t.st_mode = 2 then
      -- 2N/4N
      if c.device = Device.BM1684 then
        let layout := Layout.continuous_XN
        let xn := 4 / dtype.itemsize
        let stride := (gcs t.shape).map (· * xn)
        .ok ⟨t.device_addr, t.shape, dtype, stride, some layout⟩
      else .error "assert self.device == Device.BM1684"
    else
      let stride := gcs t.shape
      .ok ⟨t.device_addr, t.shape, dtype, stride, none⟩

/-! ## Container hierarchy (consumed read-only; bmodel_dis.py lines 33-56)

`BModel2Reg`/`BModel2Bin` walk `bmodel.nets["Net"] → net["Parameter"] →
param["SubNet"] → subnet["CmdGroup"]` in container order; each SubNet carries
`subnet["Id"][0]` and each CmdGroup raw `tiu_cmd`/`dma_cmd` byte buffers. -/

structure CmdGroup where
  tiu_cmd : List Nat
  dma_cmd : List Nat
deriving DecidableEq, Repr

structure SubNet where
  id : Nat
  cmdGroups : List CmdGroup
deriving DecidableEq, Repr

structure NetParameter where
  subNets : List SubNet
deriving DecidableEq, Repr

structure Net where
  parameters : List NetParameter
deriving DecidableEq, Repr

structure BModel where
  nets : List Net
deriving DecidableEq, Repr

/-- All SubNets of the container, in traversal order. -/
def BModel.allSubNets (m : BModel) : List SubNet :=
  m.nets.flatMap fun net => net.parameters.flatMap fun p => p.subNets

/-- `bmodel_file + f".{_id}.tiu.bin"`. -/
def tiuFileName (path : String) (id : Nat) : String :=
  path ++ "." ++ toString id ++ ".tiu.bin"

/-- `bmodel_file + f".{_id}.dma.bin"`. -/
def dmaFileName (path : String) (id : Nat) : String :=
  path ++ "." ++ toString id ++ ".dma.bin"

/-- `BModel2Bin` (bmodel_dis.py lines 46-56), embedded as the ordered list of
(file name, written bytes) pairs it produces; each `open(..., "wb")`/`write`
truncates, so a later write to the same name replaces an earlier one. -/
def BModel2Bin (bmodel_file : String) (m : BModel) : List (String × List Nat) :=
  m.nets.flatMap fun net => net.parameters.flatMap fun p => p.subNets.flatMap fun s =>
    s.cmdGroups.flatMap fun g =>
      [(tiuFileName bmodel_file s.id, g.tiu_cmd),
       (dmaFileName bmodel_file s.id, g.dma_cmd)]

/-- The write events a single SubNet contributes (used to restate
`BModel2Bin` over `allSubNets`). -/
def subnetWrites (bmodel_file : String) (s : SubNet) : List (String × List Nat) :=
  s.cmdGroups.flatMap fun g =>
    [(tiuFileName bmodel_file s.id, g.tiu_cmd),
     (dmaFileName bmodel_file s.id, g.dma_cmd)]

/-- Final content of the file `name` once all writes have run: the last write
to that name wins (`open(..., "wb")` truncates). -/
def finalContent (writes : List (String × List Nat)) (name : String) :
    Option (List Nat) :=
  ((writes.filter fun w => w.1 = name).getLast?).map Prod.snd

/-- `BModel2Reg` (bmodel_dis.py lines 33-43): the lazy single-pass sequence of
`(subnet id, decoded bundle)` pairs, with the external
`decoder.decode_bmodel_cmd` passed in abstractly. -/
def BModel2Reg {β : Type} (decode_bmodel_cmd : CmdGroup → Nat → β) (m : BModel) :
    List (Nat × β) :=
  m.nets.flatMap fun net => net.parameters.flatMap fun p => p.subNets.flatMap fun s =>
    s.cmdGroups.map fun g => (s.id, decode_bmodel_cmd g s.id)

/-! ## `Context.decoder` (context.py lines 94-97)

```
@property
@functools.lru_cache()
def decoder(self):
    return disassembler.Decoder(self)
```

`lru_cache()` wraps the underlying one-argument function, so there is a
single process-wide cache keyed by `self`; `Context` defines neither `__eq__`
nor `__hash__`, so keys compare by object identity.  `lru_cache()` uses the
default `maxsize=128` and evicts the least-recently-used entry when full.
The model carries the cache explicitly: entries are kept most-recent-first,
Decoder objects are given fresh identity tokens, and Context instances are
named by their object identity (a `Nat`). -/

structure DecoderObj where
  /-- Python object identity of this Decoder instance. -/
  objId : Nat
  /-- Object identity of the Context passed to `Decoder(self)`. -/
  boundCtx : Nat
deriving DecidableEq, Repr

structure DecoderCache where
  /-- Source of fresh Decoder object identities. -/
  nextObj : Nat
  /-- lru_cache entries keyed by Context object identity, most recent first. -/
  entries : List (Nat × DecoderObj)
deriving DecidableEq, Repr

/-- `functools.lru_cache()` default `maxsize`. -/
def lruMaxsize : Nat := 128

/-- Key lookup in the cache (the `lru_cache` dictionary hit test; keys are
Context object identities, so hashing/equality is identity). -/
def cacheLookup (k : Nat) : List (Nat × DecoderObj) → Option DecoderObj
  | [] => none
  | e :: es => if e.1 = k then some e.2 else cacheLookup k es

/-- One access of `ctx.decoder` for the Context whose object identity is
`ctxId`: a hit returns the stored object and refreshes its recency; a miss
runs `disassembler.Decoder(self)` (a fresh object), inserts it most-recent,
and evicts the least-recently-used entry if the cache exceeds `maxsize`. -/
def decoderAccess (st : DecoderCache) (ctxId : Nat) : DecoderCache × DecoderObj :=
  match cacheLookup ctxId st.entries with
  | some d =>
      ({ st with entries := (ctxId, d) :: st.entries.eraseP fun e => e.1 == ctxId }, d)
  | none =>
      let d : DecoderObj := ⟨st.nextObj, ctxId⟩
      ({ nextObj := st.nextObj + 1,
         entries := ((ctxId, d) :: st.entries).take lruMaxsize }, d)

/-- A sequence of `ctx.decoder` accesses by Context object identity,
returning the final cache state. -/
def accessAll (st : DecoderCache) (ks : List Nat) : DecoderCache :=
  ks.foldl (fun s k => (decoderAccess s k).1) st

/-- Cache well-formedness: every stored Decoder was constructed from the
Context it is keyed under. -/
def DecoderCache.WF (st : DecoderCache) : Prop :=
  ∀ e ∈ st.entries, e.2.boundCtx = e.1

/-! ## Shared capability-binding state (context.py lines 47-84)

Modelled from the spec: the opcode-definition class sets and the `MemRef`
type live in process-shared modules; `get_runner`'s `__bind_resource` writes
a `compute` behavior onto every instruction class of the current device's
TIU/DMA category mappings and a `data` accessor onto the `MemRef` type, so a
later binding overwrites whatever binding was installed before it.  The
binding target (which simulator instance, for which device) is the only
observable content of that shared state at this layer. -/

structure SharedBindings where
  /-- The `compute` behavior installed on the shared instruction classes:
  `none` until some `get_runner` ran, otherwise the (device, simulator
  instance) it delegates to. -/
  computeBinding : Option (Device × Nat)
  /-- The `data` accessor installed on the shared `MemRef` type. -/
  dataBinding : Option (Device × Nat)
deriving DecidableEq, Repr

/-- Process state threaded through every operation of this layer: the shared
capability bindings, the process-wide decoder cache, and a source of fresh
simulator instance identities. -/
structure ProcessState where
  shared : SharedBindings
  decoderCache : DecoderCache
  nextSim : Nat
deriving DecidableEq, Repr

/-- `Context(device)` as a process-state transition (it touches none of the
shared state). -/
def ctxInitOp (st : ProcessState) (s : String) :
    ProcessState × Except InitError Context :=
  (st, Context.init s)

/-- `ctx.decoder` as a process-state transition: it only reads/updates the
process-wide lru cache, never the shared bindings. -/
def decoderOp (st : ProcessState) (ctxId : Nat) : ProcessState × DecoderObj :=
  let r := decoderAccess st.decoderCache ctxId
  ({ st with decoderCache := r.1 }, r.2)

/-- `ctx.tensor2memref(tensor)` as a process-state transition. -/
def tensor2memrefOp (gcs : List Nat → List Nat) (st : ProcessState) (c : Context)
    (t : TensorDesc) : ProcessState × Except String MemRefObj :=
  (st, Context.tensor2memref gcs c t)

/-- `BModel2MLIR` as a process-state transition, with the external
`disassembler.BModel2MLIR` passed in abstractly. -/
def bmodel2mlirOp {μ : Type} (build : BModel → μ) (st : ProcessState) (m : BModel) :
    ProcessState × μ :=
  (st, build m)

/-- `BModel2Reg` as a process-state transition. -/
def bmodel2regOp {β : Type} (dec : CmdGroup → Nat → β) (st : ProcessState)
    (m : BModel) : ProcessState × List (Nat × β) :=
  (st, BModel2Reg dec m)

/-- `BModel2Bin` as a process-state transition (its file writes are not part
of the shared in-process state). -/
def bmodel2binOp (st : ProcessState) (path : String) (m : BModel) :
    ProcessState × List (String × List Nat) :=
  (st, BModel2Bin path m)

/-- `ctx.get_runner(memory_size)` as a process-state transition: construct the
device's simulator (a fresh instance), then `__bind_resource` replaces the
`compute` binding of the shared instruction classes and the `data` binding of
the shared `MemRef` type with delegates to that simulator. -/
def getRunnerOp (st : ProcessState) (c : Context) (_memory_size : Nat) :
    ProcessState × Nat :=
  let sim := st.nextSim
  ({ st with
      shared := { computeBinding := some (c.device, sim),
                  dataBinding := some (c.device, sim) },
      nextSim := st.nextSim + 1 }, sim)

/-! ## The diff engine (bmodel_dis.py lines 59-100)

`unified_diff` drives `difflib.SequenceMatcher(None, a, b).get_grouped_opcodes(n)`
from the Python standard library.  The matcher is embedded here in full:
`isjunk` is `None` (so the junk set is empty, `bjunk`), and the `autojunk`
popularity purge applies (an element is dropped from the `b2j` index when
`len(b) >= 200` and it occupies more than `len(b)//100 + 1` positions).
The two loop nests with data-dependent exit conditions
(`get_matching_blocks`' work queue and `find_longest_match`'s extension
whiles) are given explicit iteration budgets that exactly bound their
Python counterparts (the queue's total unprocessed-range measure strictly
decreases; each backward extension step decrements `besti`, each forward
step needs `besti + bestsize < ahi`), so the embedded functions agree with
the loops on every input.  Context-line counts are embedded as naturals
(`n : Nat`); the CLI's `--N` flag is an `int`, and a negative `--N` is
outside this model. -/

section Difflib

variable {α : Type} [DecidableEq α]

/-- The index list `b2j[x]` before the popularity purge: all positions of
`x` in `b`, in increasing order. -/
def positionsIn (b : List α) (x : α) : List Nat :=
  (List.range b.length).filter fun j => b[j]? = some x

/-- `autojunk` (on by default, with `isjunk=None`): `x` is purged from `b2j`
when `len(b) >= 200` and `x` occupies more than `len(b)//100 + 1` positions. -/
def isPopular (b : List α) (x : α) : Bool :=
  decide (200 ≤ b.length) && decide (b.length / 100 + 1 < (positionsIn b x).length)

/-- The purged `b2j` index of `SequenceMatcher.__chain_b`. -/
def b2j (b : List α) (x : α) : List Nat :=
  if isPopular b x then [] else positionsIn b x

/-- `SequenceMatcher(None, a, b)` passes `isjunk=None`, so `bjunk` is empty. -/
def bjunk (_ : α) : Bool := false

/-- Pointwise update of the `newj2len` dictionary (absent keys read 0,
matching `j2len.get(j-1, 0)`). -/
def updNat (f : Nat → Nat) (k v : Nat) : Nat → Nat :=
  fun x => if x = k then v else f x

/-- Inner loop of `find_longest_match` over `b2j.get(a[i], [])`: `continue`
below `blo`, `break` at or beyond `bhi`; otherwise
`k = newj2len[j] = j2len.get(j-1, 0) + 1` (the lookup at key `-1` yields the
default `0`, hence the `j = 0` guard), and the best triple is replaced by
`(i-k+1, j-k+1, k)` whenever `k > bestsize`. -/
def flmInner (j2len : Nat → Nat) (i blo bhi : Nat) :
    List Nat → (Nat → Nat) → Nat × Nat × Nat → (Nat → Nat) × (Nat × Nat × Nat)
  | [], newm, best => (newm, best)
  | j :: js, newm, best =>
    if j < blo then flmInner j2len i blo bhi js newm best
    else if bhi ≤ j then (newm, best)
    else
      let k := (if j = 0 then 0 else j2len (j - 1)) + 1
      let newm' := updNat newm j k
      let best' := if best.2.2 < k then (i + 1 - k, j + 1 - k, k) else best
      flmInner j2len i blo bhi js newm' best'

/-- The row loop `for i in range(alo, ahi)` of `find_longest_match`,
with `cnt` rows remaining; each row starts from a fresh empty `newj2len`. -/
def flmRows (b2jf : α → List Nat) (a : List α) (blo bhi : Nat) :
    Nat → Nat → (Nat → Nat) → Nat × Nat × Nat → (Nat → Nat) × (Nat × Nat × Nat)
  | 0, _, j2len, best => (j2len, best)
  | cnt + 1, i, j2len, best =>
    let js := match a[i]? with
      | some x => b2jf x
      | none => []
    let st := flmInner j2len i blo bhi js (fun _ => 0) best
    flmRows b2jf a blo bhi cnt (i + 1) st.1 st.2

/-- The element test of the extension loops:
`p(b[j]) and a[i] == b[j]` (with `p` selecting non-junk or junk). -/
def eqSelAt (a b : List α) (p : α → Bool) (i j : Nat) : Bool :=
  match b[j]? with
  | some y => p y && decide (a[i]? = some y)
  | none => false

/-- Backward extension loops of `find_longest_match`
(`while besti > alo and bestj > blo and p(b[bestj-1]) and
a[besti-1] == b[bestj-1]: besti, bestj, bestsize = besti-1, bestj-1,
bestsize+1`).  Called with `fuel = besti`; every iteration decrements
`besti` and requires `alo < besti`, so the budget is never the binding
constraint and the function equals the Python loop. -/
def extendBack (a b : List α) (alo blo : Nat) (p : α → Bool) :
    Nat → Nat × Nat × Nat → Nat × Nat × Nat
  | 0, st => st
  | fuel + 1, (besti, bestj, bestsize) =>
    if decide (alo < besti) && decide (blo < bestj) &&
        eqSelAt a b p (besti - 1) (bestj - 1) then
      extendBack a b alo blo p fuel (besti - 1, bestj - 1, bestsize + 1)
    else (besti, bestj, bestsize)

/-- Forward extension loops of `find_longest_match`
(`while besti+bestsize < ahi and bestj+bestsize < bhi and
p(b[bestj+bestsize]) and a[besti+bestsize] == b[bestj+bestsize]:
bestsize += 1`).  Called with `fuel = ahi - besti - bestsize`; every
iteration increments `bestsize` and requires `besti + bestsize < ahi`, so
the budget is never the binding constraint. -/
def extendFwd (a b : List α) (ahi bhi : Nat) (p : α → Bool) (besti bestj : Nat) :
    Nat → Nat → Nat
  | 0, bestsize => bestsize
  | fuel + 1, bestsize =>
    if decide (besti + bestsize < ahi) && decide (bestj + bestsize < bhi) &&
        eqSelAt a b p (besti + bestsize) (bestj + bestsize) then
      extendFwd a b ahi bhi p besti bestj fuel (bestsize + 1)
    else bestsize

/-- `SequenceMatcher.find_longest_match(alo, ahi, blo, bhi)`: the
`j2len` dynamic program over the rows, then the four extension loops
(non-junk backward, non-junk forward, junk backward, junk forward). -/
def find_longest_match (a b : List α) (alo ahi blo bhi : Nat) : Nat × Nat × Nat :=
  let st := flmRows (b2j b) a blo bhi (ahi - alo) alo (fun _ => 0) (alo, blo, 0)
  let s1 := st.2
  let s2 := extendBack a b alo blo (fun y => !bjunk y) s1.1 s1
  let sz3 := extendFwd a b ahi bhi (fun y => !bjunk y) s2.1 s2.2.1
    (ahi - s2.1 - s2.2.2) s2.2.2
  let s3 : Nat × Nat × Nat := (s2.1, s2.2.1, sz3)
  let s4 := extendBack a b alo blo (fun y => bjunk y) s3.1 s3
  let sz5 := extendFwd a b ahi bhi (fun y => bjunk y) s4.1 s4.2.1
    (ahi - s4.1 - s4.2.2) s4.2.2
  (s4.1, s4.2.1, sz5)

/-- The work-queue loop of `get_matching_blocks`.  `queue.pop()` is LIFO, so
the queue is a stack with its top at the head; the two sub-ranges are pushed
so that the second region is popped first, as in Python.  The fuel
`la + lb + 1` strictly bounds the number of iterations: popping a range of
total size `t` pushes ranges of total size at most `t - 2`. -/
def gmbQueue (a b : List α) :
    Nat → List (Nat × Nat × Nat × Nat) → List (Nat × Nat × Nat) →
    List (Nat × Nat × Nat)
  | 0, _, acc => acc
  | _ + 1, [], acc => acc
  | fuel + 1, (alo, ahi, blo, bhi) :: rest, acc =>
    let m := find_longest_match a b alo ahi blo bhi
    let i := m.1
    let j := m.2.1
    let k := m.2.2
    if k ≠ 0 then
      let push1 : List (Nat × Nat × Nat × Nat) :=
        if alo < i ∧ blo < j then [(alo, i, blo, j)] else []
      let push2 : List (Nat × Nat × Nat × Nat) :=
        if i + k < ahi ∧ j + k < bhi then [(i + k, ahi, j + k, bhi)] else []
      gmbQueue a b fuel (push2 ++ push1 ++ rest) (m :: acc)
    else gmbQueue a b fuel rest acc

/-- Lexicographic order on `Match` triples (`matching_blocks.sort()`). -/
def blockLe (x y : Nat × Nat × Nat) : Bool :=
  decide (x.1 < y.1) ||
    (decide (x.1 = y.1) &&
      (decide (x.2.1 < y.2.1) ||
        (decide (x.2.1 = y.2.1) && decide (x.2.2 ≤ y.2.2))))

def insertBlock (x : Nat × Nat × Nat) :
    List (Nat × Nat × Nat) → List (Nat × Nat × Nat)
  | [] => [x]
  | y :: ys => if blockLe x y then x :: y :: ys else y :: insertBlock x ys

/-- Stable sort of the matching blocks (`matching_blocks.sort()`). -/
def sortBlocks : List (Nat × Nat × Nat) → List (Nat × Nat × Nat)
  | [] => []
  | x :: xs => insertBlock x (sortBlocks xs)

/-- The second phase of `get_matching_blocks`: collapse adjacent triples
(`i1 + k1 == i2 and j1 + k1 == j2`), dropping empty accumulators. -/
def mergeAdjacent :
    Nat × Nat × Nat → List (Nat × Nat × Nat) → List (Nat × Nat × Nat)
  | (i1, j1, k1), [] => if k1 ≠ 0 then [(i1, j1, k1)] else []
  | (i1, j1, k1), (i2, j2, k2) :: rest =>
    if i1 + k1 = i2 ∧ j1 + k1 = j2 then mergeAdjacent (i1, j1, k1 + k2) rest
    else (if k1 ≠ 0 then [(i1, j1, k1)] else []) ++ mergeAdjacent (i2, j2, k2) rest

/-- `SequenceMatcher.get_matching_blocks()`: queue, sort, merge, sentinel. -/
def get_matching_blocks (a b : List α) : List (Nat × Nat × Nat) :=
  let la := a.length
  let lb := b.length
  let blocks := gmbQueue a b (la + lb + 1) [(0, la, 0, lb)] []
  mergeAdjacent (0, 0, 0) (sortBlocks blocks) ++ [(la, lb, 0)]

/-- One `(tag, i1, i2, j1, j2)` tuple of `get_opcodes`. -/
structure Opcode where
  tag : String
  i1 : Nat
  i2 : Nat
  j1 : Nat
  j2 : Nat
deriving DecidableEq, Repr

/-- The loop of `get_opcodes` over the matching blocks. -/
def opcodesLoop : Nat → Nat → List (Nat × Nat × Nat) → List Opcode
  | _, _, [] => []
  | i, j, (ai, bj, size) :: rest =>
    (if i < ai ∧ j < bj then [⟨"replace", i, ai, j, bj⟩]
     else if i < ai then [⟨"delete", i, ai, j, bj⟩]
     else if j < bj then [⟨"insert", i, ai, j, bj⟩]
     else []) ++
    (if size ≠ 0 then [⟨"equal", ai, ai + size, bj, bj + size⟩] else []) ++
    opcodesLoop (ai + size) (bj + size) rest

/-- `SequenceMatcher.get_opcodes()`. -/
def get_opcodes (a b : List α) : List Opcode :=
  opcodesLoop 0 0 (get_matching_blocks a b)

/-- First fixup of `get_grouped_opcodes`: shrink a leading `equal` opcode to
at most `n` context lines (`max(i1, i2-n)`; the Python `i2-n` may be
negative, in which case `max` picks `i1`, which truncated subtraction
reproduces). -/
def fixupHead (n : Nat) : List Opcode → List Opcode
  | [] => []
  | c :: rest =>
    if c.tag = "equal" then
      ⟨c.tag, max c.i1 (c.i2 - n), c.i2, max c.j1 (c.j2 - n), c.j2⟩ :: rest
    else c :: rest

/-- Second fixup of `get_grouped_opcodes`: shrink a trailing `equal` opcode
to at most `n` context lines. -/
def fixupLast (n : Nat) : List Opcode → List Opcode
  | [] => []
  | [c] =>
    if c.tag = "equal" then
      [⟨c.tag, c.i1, min c.i2 (c.i1 + n), c.j1, min c.j2 (c.j1 + n)⟩]
    else [c]
  | c :: rest => c :: fixupLast n rest

/-- The grouping loop of `get_grouped_opcodes`: a long `equal` opcode
(`i2-i1 > n+n`) ends the current group; a trailing group consisting of a
single `equal` opcode is suppressed. -/
def groupLoop (n : Nat) : List Opcode → List Opcode → List (List Opcode)
  | group, [] =>
    if group ≠ [] ∧ ¬(group.length = 1 ∧ group.head?.map Opcode.tag = some "equal")
    then [group] else []
  | group, c :: rest =>
    if c.tag = "equal" ∧ n + n < c.i2 - c.i1 then
      (group ++ [⟨c.tag, c.i1, min c.i2 (c.i1 + n), c.j1, min c.j2 (c.j1 + n)⟩]) ::
        groupLoop n [⟨c.tag, max c.i1 (c.i2 - n), c.i2, max c.j1 (c.j2 - n), c.j2⟩] rest
    else groupLoop n (group ++ [c]) rest

/-- `SequenceMatcher.get_grouped_opcodes(n)` (fully materialized): empty
opcode lists are replaced by a unit `equal` opcode, the leading/trailing
`equal` opcodes are trimmed to `n` context lines, then groups are formed. -/
def get_grouped_opcodes (a b : List α) (n : Nat) : List (List Opcode) :=
  let codes := get_opcodes a b
  let codes := if codes = [] then [⟨"equal", 0, 1, 0, 1⟩] else codes
  groupLoop n [] (fixupLast n (fixupHead n codes))

/-! Verification auxiliaries for the self-diff theorem:
`runEnd a i j` is the length of the longest common run of `a` against itself
ending at row `i`, column `j`, restricted to non-popular elements — the
quantity `j2len[j]` tracks after row `i`; `diag`/`maxDiagB` are its diagonal
and running-maximum versions. -/

/-- Row `i` and column `j` hold the same non-popular element of `a`. -/
def goodPair (a : List α) (i j : Nat) : Bool :=
  match a[i]?, a[j]? with
  | some x, some y => decide (x = y) && !isPopular a x
  | _, _ => false

def runEnd (a : List α) : Nat → Nat → Nat
  | 0, j => if goodPair a 0 j then 1 else 0
  | i + 1, j =>
    if goodPair a (i + 1) j then
      (if j = 0 then 1 else runEnd a i (j - 1) + 1)
    else 0

/-- Length of the diagonal run ending at `(i, i)`. -/
def diag (a : List α) (i : Nat) : Nat := runEnd a i i

/-- Maximum of `diag a` over all rows `< r`. -/
def maxDiagB (a : List α) : Nat → Nat
  | 0 => 0
  | r + 1 => max (maxDiagB a r) (diag a r)

end Difflib

/-! ## `unified_diff` and the two-file CLI path (bmodel_dis.py lines 59-100,
152-177)

A decoded operation is opaque to the diff except for equality and its three
textual projections: `str(op)` (mlir), `str(op.attr)` (raw) and the joined
digits of `op.cmd` (bits). -/

structure Op where
  mlirText : String
  attrText : String
  cmd : List Nat
deriving DecidableEq, Repr

/-- `lambda op: str(op.attr)`. -/
def fmtRaw (op : Op) : String := op.attrText

/-- `lambda op: str(op)`. -/
def fmtMlir (op : Op) : String := op.mlirText

/-- `lambda op: "".join(str(x) for x in op.cmd)`. -/
def fmtBits (op : Op) : String := String.join (op.cmd.map toString)

/-- The `fmt_op` dictionary lookup (`fmt_op[format]`); `none` is the
`KeyError` raised for a format outside `{raw, mlir, bits}`. -/
def fmt_op (format : String) : Option (Op → String) :=
  if format = "raw" then some fmtRaw
  else if format = "mlir" then some fmtMlir
  else if format = "bits" then some fmtBits
  else none

/-- `difflib._format_range_unified(start, stop)`. -/
def formatRangeUnified (start stop : Nat) : String :=
  let beginning := start + 1
  let length := stop - start
  if length = 1 then toString beginning
  else
    let beginning := if length = 0 then beginning - 1 else beginning
    toString beginning ++ "," ++ toString length

/-- The slice-and-prefix step `pre + fmt(line) for line in xs[i1:i2]`. -/
def sliceFmt (xs : List Op) (i1 i2 : Nat) (pre : String) (fmt : Op → String) :
    List String :=
  ((xs.drop i1).take (i2 - i1)).map fun op => pre ++ fmt op

/-- The per-opcode lines of a hunk: `"    " + fmt` for equal lines of `a`,
`"-   "` for replace/delete lines of `a`, `"+   "` for replace/insert lines
of `b`. -/
def diffLines (a b : List Op) (fmt : Op → String) (c : Opcode) : List String :=
  if c.tag = "equal" then sliceFmt a c.i1 c.i2 "    " fmt
  else
    (if c.tag = "replace" ∨ c.tag = "delete"
     then sliceFmt a c.i1 c.i2 "-   " fmt else []) ++
    (if c.tag = "replace" ∨ c.tag = "insert"
     then sliceFmt b c.j1 c.j2 "+   " fmt else [])

/-- The lines one group contributes: its `@@`-header (which carries the
`lineterm`), the per-opcode lines, and the trailing `yield ""`. -/
def groupOut (a b : List Op) (fmt : Op → String) (g : List Opcode) : List String :=
  match g with
  | [] => []
  | first :: _ =>
    let last := g.getLastD first
    ("@@ -" ++ formatRangeUnified first.i1 last.i2 ++ " +" ++
        formatRangeUnified first.j1 last.j2 ++ " @@\n") ::
      (g.flatMap (diffLines a b fmt) ++ [""])

/-- `unified_diff(a, b, fromfile, tofile, n, format)` (bmodel_dis.py lines
59-100), fully materialized as the list of yielded strings.  The `---`/`+++`
headers are emitted once, before the first group, and only when there is at
least one group; an unknown `format` raises `KeyError` at the lookup
`fmt_op[format]`. -/
def unified_diff (a b : List Op) (fromfile tofile : String) (n : Nat)
    (format : String) : Except String (List String) :=
  match fmt_op format with
  | none => .error format
  | some fmt =>
    match get_grouped_opcodes a b n with
    | [] => .ok []
    | g :: gs =>
      .ok (("--- " ++ fromfile) :: ("+++ " ++ tofile) ::
        (g :: gs).flatMap (groupOut a b fmt))

/-- `fun_name = "graph" + "".join(str(x) for x in idx)`. -/
def graphName (idx : List Nat) : String :=
  "graph" ++ String.join (idx.map toString)

/-- The pseudo-function block printed for one differing subgraph pair:
`fmt_cmd = "".join(fmt_cmd[:-1]) + "\n"` then
`print(f"func.func @{fun_name}() {{{fmt_cmd}}}")`, where the incoming
`fmt_cmd` entries already carry their leading newline. -/
def wrapBlock (idx : List Nat) (fmt_cmd : List String) : String :=
  "func.func @" ++ graphName idx ++ "() \x7b" ++
    (String.join fmt_cmd.dropLast ++ "\n") ++ "\x7d"

/-- One decoded subgraph of the module form, as the compare loop consumes
it: its index path `idx` and its operation sequence `cmd.all`. -/
abbrev SubGraph := List Nat × List Op

/-- The loop body of the two-path branch (bmodel_dis.py lines 156-172) over
the zipped subgraph pairs: collect the wrapped non-empty diffs in print
order together with the final `is_same` flag; a `KeyError` from
`unified_diff` aborts the loop. -/
def comparePairs (pathA pathB : String) (n : Nat) (format : String) :
    List (SubGraph × SubGraph) → Except String (List String × Bool)
  | [] => .ok ([], true)
  | (pa, pb) :: rest =>
    match unified_diff pa.2 pb.2 pathA pathB n format with
    | .error e => .error e
    | .ok d =>
      let fmt_cmd := d.map fun x => "\n" ++ x
      match comparePairs pathA pathB n format rest with
      | .error e => .error e
      | .ok r =>
        if fmt_cmd ≠ [] then .ok (wrapBlock pa.1 fmt_cmd :: r.1, false)
        else .ok (r.1, r.2)

/-- `print(f""""{a}" and "{b}" are the same!""")`. -/
def sameMessage (pathA pathB : String) : String :=
  "\"" ++ pathA ++ "\" and \"" ++ pathB ++ "\" are the same!"

/-- The whole two-path branch of `__main` (bmodel_dis.py lines 152-177),
taking the two decoded modules' `cmd` lists: returns the printed lines in
order and the exit status (0 after the same-message, 1 otherwise). -/
def bmodelCompare (modA modB : List SubGraph) (pathA pathB : String) (n : Nat)
    (format : String) : Except String (List String × Nat) :=
  match comparePairs pathA pathB n format (modA.zip modB) with
  | .error e => .error e
  | .ok r =>
    if r.2 then .ok (r.1 ++ [sameMessage pathA pathB], 0)
    else .ok (r.1, 1)

/-- The wrapped block of one pair, or nothing when its diff is empty (used to
state what the compare loop prints). -/
def pairBlock (pathA pathB : String) (n : Nat) (format : String)
    (p : SubGraph × SubGraph) : Option String :=
  match unified_diff p.1.2 p.2.2 pathA pathB n format with
  | .ok [] => none
  | .ok d => some (wrapBlock p.1.1 (d.map fun x => "\n" ++ x))
  | .error _ => none

/-! ## Theorems -/

/-- C6: for every supported device identifier (`BM1684X`, `BM1684`), Context
construction succeeds and its `memmap`/`MemRef` accessors return members of
the registry-selected operand-layout set for that device; for every
unsupported identifier, construction fails with an error and no partial
Context is produced. -/
theorem context_init_registry :
    (∀ s d, parseDevice s = some d →
      Context.init s = .ok ⟨d, registryOpdef d, registryOpparam d⟩ ∧
      (Context.mk d (registryOpdef d) (registryOpparam d)).memmap =
        (registryOpparam d).memmap ∧
      (Context.mk d (registryOpdef d) (registryOpparam d)).MemRefCls =
        (registryOpparam d).MemRefCls) ∧
    (∀ s, parseDevice s = none → Context.init s = .error (.conversion s)) := by
  constructor
  · intro s d h
    cases d <;> simp [Context.init, h, registryOpdef, registryOpparam,
      Context.memmap, Context.MemRefCls]
  · intro s h
    simp [Context.init, h]

theorem context_init_registry_witness :
    parseDevice "BM1684" = some Device.BM1684 ∧
    Context.init "BM1684" =
      .ok ⟨Device.BM1684, registryOpdef Device.BM1684, registryOpparam Device.BM1684⟩ ∧
    (Context.mk Device.BM1684 (registryOpdef Device.BM1684)
      (registryOpparam Device.BM1684)).memmap =
      (registryOpparam Device.BM1684).memmap ∧
    parseDevice "bm1684" = none ∧
    Context.init "bm1684" = .error (.conversion "bm1684") :=
  ⟨by decide,
    (context_init_registry.1 "BM1684" Device.BM1684 (by decide)).1,
    (context_init_registry.1 "BM1684" Device.BM1684 (by decide)).2.1,
    by decide,
    context_init_registry.2 "bm1684" (by decide)⟩

/-- C10: the final `Unknown device` branch of `Context.__init__` is
unreachable: any argument that does not convert fails at `Device(device)`
(the `conversion` error), and every converted member is handled by one of
the two explicit device branches. -/
theorem unknown_device_unreachable (s t : String) :
    Context.init s ≠ .error (.unknownDevice t) := by
  unfold Context.init
  cases h : parseDevice s with
  | none => simp
  | some d => cases d <;> simp

/-- C7: for every device and every tensor descriptor with nonzero height
padding, `tensor2memref` fails (the `pad_h` assertion) and constructs no
MemRef. -/
theorem tensor2memref_pad_h (gcs : List Nat → List Nat) (c : Context)
    (t : TensorDesc) (h : t.pad_h ≠ 0) :
    Context.tensor2memref gcs c t = .error "Not supports pad_h." := by
  simp [Context.tensor2memref, h]

theorem tensor2memref_pad_h_witness :
    (⟨1, ⟨1⟩, 0, [1, 2], 0⟩ : TensorDesc).pad_h ≠ 0 ∧
    Context.tensor2memref id ⟨Device.BM1684X, .opdef_1684x, .opparam_1684x⟩
      ⟨1, ⟨1⟩, 0, [1, 2], 0⟩ = .error "Not supports pad_h." :=
  ⟨by decide,
    tensor2memref_pad_h id ⟨Device.BM1684X, .opdef_1684x, .opparam_1684x⟩
      ⟨1, ⟨1⟩, 0, [1, 2], 0⟩ (by decide)⟩

/-- C3: for descriptors with zero height padding: in the packed storage modes
(`st_mode ∈ {1, 2}`, the 2N/4N values) `tensor2memref` succeeds exactly when
the device is BM1684, and then the stride is the contiguous stride scaled by
`4 // itemsize` with the layout tagged `continuous_XN`; in every other
storage mode it returns the ordinary contiguous stride with no layout tag. -/
theorem tensor2memref_packed (gcs : List Nat → List Nat) (c : Context)
    (t : TensorDesc) (hpad : t.pad_h = 0) :
    ((t.st_mode = 1 ∨ t.st_mode = 2) →
      ((∃ r, Context.tensor2memref gcs c t = .ok r) ↔ c.device = Device.BM1684) ∧
      (c.device = Device.BM1684 →
        Context.tensor2memref gcs c t =
          .ok ⟨t.device_addr, t.shape, t.dtype,
            (gcs t.shape).map (· * (4 / t.dtype.itemsize)),
            some Layout.continuous_XN⟩)) ∧
    (¬(t.st_mode = 1 ∨ t.st_mode = 2) →
      Context.tensor2memref gcs c t =
        .ok ⟨t.device_addr, t.shape, t.dtype, gcs t.shape, none⟩) := by
  constructor
  · intro hst
    constructor
    · constructor
      · rintro ⟨r, hr⟩
        by_contra hdev
        simp [Context.tensor2memref, hpad, hst, hdev] at hr
      · intro hdev
        refine ⟨⟨t.device_addr, t.shape, t.dtype,
          (gcs t.shape).map (· * (4 / t.dtype.itemsize)), some Layout.continuous_XN⟩, ?_⟩
        simp [Context.tensor2memref, hpad, hst, hdev]
    · intro hdev
      simp [Context.tensor2memref, hpad, hst, hdev]
  · intro hst
    simp [Context.tensor2memref, hpad, hst]

theorem tensor2memref_packed_witness :
    (⟨0, ⟨2⟩, 1, [1, 2], 7⟩ : TensorDesc).pad_h = 0 ∧
    ((((⟨0, ⟨2⟩, 1, [1, 2], 7⟩ : TensorDesc).st_mode = 1 ∨
        (⟨0, ⟨2⟩, 1, [1, 2], 7⟩ : TensorDesc).st_mode = 2) →
      ((∃ r, Context.tensor2memref id ⟨Device.BM1684, .opdef_1684, .opparam_1684⟩
          ⟨0, ⟨2⟩, 1, [1, 2], 7⟩ = .ok r) ↔
        (Context.mk Device.BM1684 .opdef_1684 .opparam_1684).device = Device.BM1684) ∧
      ((Context.mk Device.BM1684 .opdef_1684 .opparam_1684).device = Device.BM1684 →
        Context.tensor2memref id ⟨Device.BM1684, .opdef_1684, .opparam_1684⟩
          ⟨0, ⟨2⟩, 1, [1, 2], 7⟩ =
          .ok ⟨7, [1, 2], ⟨2⟩, [1 * (4 / 2), 2 * (4 / 2)], some Layout.continuous_XN⟩)) ∧
    (¬((⟨0, ⟨2⟩, 1, [1, 2], 7⟩ : TensorDesc).st_mode = 1 ∨
        (⟨0, ⟨2⟩, 1, [1, 2], 7⟩ : TensorDesc).st_mode = 2) →
      Context.tensor2memref id ⟨Device.BM1684, .opdef_1684, .opparam_1684⟩
        ⟨0, ⟨2⟩, 1, [1, 2], 7⟩ =
        .ok ⟨7, [1, 2], ⟨2⟩, [1, 2], none⟩)) :=
  ⟨rfl, tensor2memref_packed id ⟨Device.BM1684, .opdef_1684, .opparam_1684⟩
    ⟨0, ⟨2⟩, 1, [1, 2], 7⟩ rfl⟩

/-- C8: decode-only operations (Context construction, decoder access,
`tensor2memref`, the module/register/binary conversion entry points) never
mutate the shared instruction-class/`MemRef` bindings; only `get_runner`
does, and a second `get_runner` call (same or different device) overwrites
the compute and data bindings installed by the first call with bindings to
the second call's simulator. -/
theorem shared_state_frame :
    (∀ st s, (ctxInitOp st s).1.shared = st.shared) ∧
    (∀ st k, (decoderOp st k).1.shared = st.shared) ∧
    (∀ gcs st c t, (tensor2memrefOp gcs st c t).1.shared = st.shared) ∧
    (∀ (μ : Type) (build : BModel → μ) st m,
      (bmodel2mlirOp build st m).1.shared = st.shared) ∧
    (∀ (β : Type) (dec : CmdGroup → Nat → β) st m,
      (bmodel2regOp dec st m).1.shared = st.shared) ∧
    (∀ st path m, (bmodel2binOp st path m).1.shared = st.shared) ∧
    (∀ st c ms c' ms',
      ((getRunnerOp (getRunnerOp st c ms).1 c' ms').1).shared =
        { computeBinding := some (c'.device, st.nextSim + 1),
          dataBinding := some (c'.device, st.nextSim + 1) }) := by
  refine ⟨fun _ _ => rfl, fun _ _ => rfl, fun _ _ _ _ => rfl, fun _ _ _ _ => rfl,
    fun _ _ _ _ => rfl, fun _ _ _ => rfl, fun _ _ _ _ _ => rfl⟩

theorem cacheLookup_mem {k : Nat} {d : DecoderObj} {l : List (Nat × DecoderObj)}
    (h : cacheLookup k l = some d) : (k, d) ∈ l := by
  induction l with
  | nil => simp [cacheLookup] at h
  | cons e es ih =>
    obtain ⟨e1, e2⟩ := e
    rw [cacheLookup] at h
    split at h
    · next heq =>
      injection h with h2
      simp only at heq
      subst heq; subst h2
      exact List.mem_cons_self _ _
    · exact List.mem_cons_of_mem _ (ih h)

/-- A decoder handed out by an access is always bound to the context it was
requested for, provided the cache is well-formed. -/
theorem decoderAccess_boundCtx (st : DecoderCache) (k : Nat) (hWF : st.WF) :
    (decoderAccess st k).2.boundCtx = k := by
  cases h : cacheLookup k st.entries with
  | some d =>
    have hm := hWF (k, d) (cacheLookup_mem h)
    simp only at hm
    simp [decoderAccess, h, hm]
  | none => simp [decoderAccess, h]

set_option maxRecDepth 100000 in
/-- C5 (counterexample): `decoder` access is a process-wide
`functools.lru_cache()` with the default `maxsize = 128`.  Accessing one
Context's decoder, then the decoders of 128 other Context instances, evicts
the first entry, so re-accessing the first Context constructs a fresh
Decoder: the two accesses on the same instance do not return the identical
object. -/
theorem decoder_memoization_cex :
    (decoderAccess (accessAll (decoderAccess ⟨0, []⟩ 0).1
        ((List.range 128).map (· + 1))) 0).2 ≠
      (decoderAccess ⟨0, []⟩ 0).2 := by decide

/-- Right after an access for key `k`, the cache maps `k` to exactly the
object that access returned. -/
theorem lookup_after_self_access (st : DecoderCache) (k : Nat) :
    cacheLookup k (decoderAccess st k).1.entries = some (decoderAccess st k).2 := by
  cases h : cacheLookup k st.entries with
  | some d =>
    have h1 : decoderAccess st k =
        ({ st with entries := (k, d) :: st.entries.eraseP fun e => e.1 == k }, d) := by
      simp [decoderAccess, h]
    rw [h1]
    simp [cacheLookup]
  | none =>
    have h1 : decoderAccess st k =
        ({ nextObj := st.nextObj + 1,
           entries := ((k, ⟨st.nextObj, k⟩) :: st.entries).take lruMaxsize },
         (⟨st.nextObj, k⟩ : DecoderObj)) := by
      simp [decoderAccess, h]
    rw [h1]
    have h2 : ((k, (⟨st.nextObj, k⟩ : DecoderObj)) :: st.entries).take lruMaxsize
        = (k, (⟨st.nextObj, k⟩ : DecoderObj)) :: st.entries.take 127 := rfl
    simp [h2, cacheLookup]

/-- An access for `k` on a cache that holds `k` is a hit and returns the
stored object. -/
theorem decoderAccess_hit {st : DecoderCache} {k : Nat} {d : DecoderObj}
    (h : cacheLookup k st.entries = some d) : (decoderAccess st k).2 = d := by
  simp [decoderAccess, h]

/-- The recency reorder of a hit for another key does not change what `k`
maps to. -/
theorem cacheLookup_eraseP_other (k k' : Nat) (hkk : k ≠ k') :
    ∀ l : List (Nat × DecoderObj),
      cacheLookup k (l.eraseP fun e => e.1 == k') = cacheLookup k l := by
  intro l
  induction l with
  | nil => rfl
  | cons e es ih =>
    rw [List.eraseP_cons]
    cases hpe : (e.1 == k') with
    | true =>
      have he : e.1 = k' := by
        have := hpe
        simp at this
        exact this
      rw [cond_true, cacheLookup, if_neg (by omega)]
    | false =>
      rw [cond_false, cacheLookup, cacheLookup]
      by_cases hek : e.1 = k
      · rw [if_pos hek, if_pos hek]
      · rw [if_neg hek, if_neg hek, ih]

/-- Truncating the cache (LRU eviction) can only preserve what `k` maps to
or drop the entry altogether. -/
theorem cacheLookup_take (k : Nat) :
    ∀ (l : List (Nat × DecoderObj)) (m : Nat),
      cacheLookup k (l.take m) = cacheLookup k l ∨
      cacheLookup k (l.take m) = none := by
  intro l
  induction l with
  | nil => intro m; left; cases m <;> rfl
  | cons e es ih =>
    intro m
    cases m with
    | zero => right; rfl
    | succ m =>
      rw [List.take_succ_cons, cacheLookup, cacheLookup]
      by_cases hek : e.1 = k
      · rw [if_pos hek, if_pos hek]
        left
        rfl
      · rw [if_neg hek, if_neg hek]
        exact ih m

/-- One access (for any key `k'`) either leaves the object stored under `k`
unchanged or evicts the entry — it never replaces it with a different
object. -/
theorem cacheLookup_step (st : DecoderCache) (k k' : Nat) (d : DecoderObj)
    (hd : cacheLookup k st.entries = some d) :
    cacheLookup k (decoderAccess st k').1.entries = some d ∨
    cacheLookup k (decoderAccess st k').1.entries = none := by
  by_cases hkk : k = k'
  · subst hkk
    left
    rw [lookup_after_self_access, decoderAccess_hit hd]
  · cases hl : cacheLookup k' st.entries with
    | some d' =>
      left
      have h1 : decoderAccess st k' =
          ({ st with entries := (k', d') :: st.entries.eraseP fun e => e.1 == k' }, d') := by
        simp [decoderAccess, hl]
      rw [h1]
      rw [cacheLookup, if_neg (by omega), cacheLookup_eraseP_other k k' hkk]
      exact hd
    | none =>
      have h1 : decoderAccess st k' =
          ({ nextObj := st.nextObj + 1,
             entries := ((k', ⟨st.nextObj, k'⟩) :: st.entries).take lruMaxsize },
           (⟨st.nextObj, k'⟩ : DecoderObj)) := by
        simp [decoderAccess, hl]
      rw [h1]
      have h2 : ((k', (⟨st.nextObj, k'⟩ : DecoderObj)) :: st.entries).take lruMaxsize
          = (k', (⟨st.nextObj, k'⟩ : DecoderObj)) :: st.entries.take 127 := rfl
      rw [h2]
      rw [cacheLookup, if_neg (by omega)]
      rcases cacheLookup_take k st.entries 127 with h | h
      · left
        rw [h]
        exact hd
      · right
        exact h

/-- If the entry for `k` is present at every step boundary of an interleaved
access sequence (i.e. it is never evicted), then at the end `k` still maps
to the very object it mapped to at the start. -/
theorem cacheLookup_preserved (k : Nat) :
    ∀ (ks : List Nat) (st : DecoderCache) (d : DecoderObj),
      cacheLookup k st.entries = some d →
      (∀ i < ks.length + 1,
        (cacheLookup k (accessAll st (ks.take i)).entries).isSome = true) →
      cacheLookup k (accessAll st ks).entries = some d := by
  intro ks
  induction ks with
  | nil =>
    intro st d hd _
    exact hd
  | cons k' ks ih =>
    intro st d hd hs
    have h1 : (cacheLookup k (decoderAccess st k').1.entries).isSome = true := by
      have := hs 1 (by simp)
      simpa [accessAll] using this
    rcases cacheLookup_step st k k' d hd with hsome | hnone
    · have hs' : ∀ i < ks.length + 1,
          (cacheLookup k (accessAll (decoderAccess st k').1 (ks.take i)).entries).isSome
            = true := by
        intro i hi
        have := hs (i + 1) (by simp; omega)
        simpa [accessAll, List.take_succ_cons] using this
      have := ih (decoderAccess st k').1 d hsome hs'
      simpa [accessAll] using this
    · rw [hnone] at h1
      simp at h1

/-- C5 (amended): accessing `decoder` twice on the same Context returns the
identical object as long as the cache entry is not evicted by the accesses
interleaved between the two (`ks`, arbitrary; the survival hypothesis states
the entry is present at every step boundary — in particular an immediate
re-access, `ks = []`, always qualifies), and two distinct Context instances
never share a decoder. -/
theorem decoder_memoization_amended (st st' : DecoderCache) (k k' : Nat)
    (ks : List Nat) (hWF : st.WF) (hWF' : st'.WF)
    (hsurv : ∀ i < ks.length + 1,
      (cacheLookup k
        (accessAll (decoderAccess st k).1 (ks.take i)).entries).isSome = true) :
    ((decoderAccess (accessAll (decoderAccess st k).1 ks) k).2 =
      (decoderAccess st k).2) ∧
    (k ≠ k' → (decoderAccess st k).2 ≠ (decoderAccess st' k').2) := by
  constructor
  · exact decoderAccess_hit
      (cacheLookup_preserved k ks (decoderAccess st k).1 (decoderAccess st k).2
        (lookup_after_self_access st k) hsurv)
  · intro hkk heq
    apply hkk
    rw [← decoderAccess_boundCtx st k hWF, heq, decoderAccess_boundCtx st' k' hWF']

theorem decoder_memoization_amended_witness :
    DecoderCache.WF ⟨0, []⟩ ∧
    (∀ i < ([1, 2] : List Nat).length + 1,
      (cacheLookup 0
        (accessAll (decoderAccess ⟨0, []⟩ 0).1
          (([1, 2] : List Nat).take i)).entries).isSome = true) ∧
    ((decoderAccess (accessAll (decoderAccess ⟨0, []⟩ 0).1 [1, 2]) 0).2 =
      (decoderAccess ⟨0, []⟩ 0).2) ∧
    (0 ≠ 1 → (decoderAccess ⟨0, []⟩ 0).2 ≠ (decoderAccess ⟨0, []⟩ 1).2) :=
  ⟨fun e he => by simp at he,
    by decide,
    decoder_memoization_amended ⟨0, []⟩ ⟨0, []⟩ 0 1 [1, 2]
      (fun e he => by simp at he) (fun e he => by simp at he) (by decide)⟩

theorem BModel2Bin_eq_flatMap (path : String) (m : BModel) :
    BModel2Bin path m = m.allSubNets.flatMap (subnetWrites path) := by
  simp only [BModel2Bin, BModel.allSubNets, List.flatMap_assoc]
  rfl

theorem string_append_cancel_right {x y s : String} (h : x ++ s = y ++ s) : x = y := by
  apply String.ext
  have hd := congrArg String.data h
  rw [String.data_append, String.data_append] at hd
  exact List.append_cancel_right hd

theorem string_append_cancel_left {x y s : String} (h : s ++ x = s ++ y) : x = y := by
  apply String.ext
  have hd := congrArg String.data h
  rw [String.data_append, String.data_append] at hd
  exact List.append_cancel_left hd

theorem append_tiu_ne_dma (x y : String) : x ++ ".tiu.bin" ≠ y ++ ".dma.bin" := by
  intro h
  have hd := congrArg (fun s : String => s.data.reverse.take 8) h
  simp only [String.data_append, List.reverse_append] at hd
  rw [@List.take_left' Char (String.data ".tiu.bin").reverse x.data.reverse 8 (by decide),
      @List.take_left' Char (String.data ".dma.bin").reverse y.data.reverse 8 (by decide)] at hd
  exact absurd hd (by decide)

theorem tiuFileName_inj {p : String} {i j : Nat}
    (h : tiuFileName p i = tiuFileName p j) : toString i = toString j :=
  string_append_cancel_left (string_append_cancel_right h)

theorem dmaFileName_inj {p : String} {i j : Nat}
    (h : dmaFileName p i = dmaFileName p j) : toString i = toString j :=
  string_append_cancel_left (string_append_cancel_right h)

theorem tiuFileName_ne_dmaFileName (p q : String) (i j : Nat) :
    tiuFileName p i ≠ dmaFileName q j :=
  append_tiu_ne_dma (p ++ "." ++ toString i) (q ++ "." ++ toString j)

theorem mem_subnetWrites_names {path : String} {s : SubNet} {x : String}
    (h : x ∈ (subnetWrites path s).map Prod.fst) :
    x = tiuFileName path s.id ∨ x = dmaFileName path s.id := by
  rcases List.mem_map.1 h with ⟨w, hw, rfl⟩
  rcases List.mem_flatMap.1 hw with ⟨g, _, hw2⟩
  simp only [List.mem_cons, List.mem_singleton, List.not_mem_nil, or_false] at hw2
  rcases hw2 with rfl | rfl
  · exact Or.inl rfl
  · exact Or.inr rfl

theorem flat_writes_length (path : String) :
    ∀ L : List SubNet, (∀ s ∈ L, s.cmdGroups.length = 1) →
      (L.flatMap (subnetWrites path)).length = 2 * L.length := by
  intro L
  induction L with
  | nil => simp
  | cons s L ih =>
    intro h1
    obtain ⟨g, hg⟩ := List.length_eq_one.1 (h1 s (List.mem_cons_self _ _))
    rw [List.flatMap_cons, List.length_append,
      ih fun s' hs' => h1 s' (List.mem_cons_of_mem _ hs')]
    simp [subnetWrites, hg]
    omega

theorem flat_writes_names_nodup (path : String) :
    ∀ L : List SubNet, (∀ s ∈ L, s.cmdGroups.length = 1) →
      (L.map fun s => toString s.id).Nodup →
      ((L.flatMap (subnetWrites path)).map Prod.fst).Nodup := by
  intro L
  induction L with
  | nil => intro _ _; simp
  | cons s L ih =>
    intro h1 hnd
    rw [List.map_cons, List.nodup_cons] at hnd
    obtain ⟨g, hg⟩ := List.length_eq_one.1 (h1 s (List.mem_cons_self _ _))
    rw [List.flatMap_cons, List.map_append]
    refine List.Nodup.append ?_ (ih (fun s' hs' => h1 s' (List.mem_cons_of_mem _ hs')) hnd.2) ?_
    · simp [subnetWrites, hg, tiuFileName_ne_dmaFileName]
    · intro x hx hx'
      rcases List.mem_map.1 hx' with ⟨w, hw, rfl⟩
      rcases List.mem_flatMap.1 hw with ⟨s', hs', hws'⟩
      have hxn' := mem_subnetWrites_names (List.mem_map_of_mem Prod.fst hws')
      have hxn := mem_subnetWrites_names hx
      have hid : toString s'.id = toString s.id := by
        rcases hxn with h | h <;> rcases hxn' with h' | h'
        · exact tiuFileName_inj (h'.symm.trans h)
        · exact absurd (h.symm.trans h') (tiuFileName_ne_dmaFileName _ _ _ _)
        · exact absurd (h'.symm.trans h) (tiuFileName_ne_dmaFileName _ _ _ _)
        · exact dmaFileName_inj (h'.symm.trans h)
      exact hnd.1 (hid ▸ List.mem_map_of_mem (fun s0 => toString s0.id) hs')

theorem finalContent_of_nodup :
    ∀ writes : List (String × List Nat), (writes.map Prod.fst).Nodup →
      ∀ {n v}, (n, v) ∈ writes → finalContent writes n = some v := by
  intro writes
  induction writes with
  | nil => intro _ n v h; simp at h
  | cons w ws ih =>
    intro hnd n v hm
    obtain ⟨w1, w2⟩ := w
    rw [List.map_cons, List.nodup_cons] at hnd
    rcases List.mem_cons.1 hm with heq | hmem
    · injection heq with h1 h2
      subst h1; subst h2
      have hrest : (ws.filter fun w => w.1 = n) = [] := by
        rw [List.filter_eq_nil_iff]
        intro a ha
        simp only [decide_eq_true_eq]
        intro hax
        have hmem2 : a.1 ∈ ws.map Prod.fst := List.mem_map_of_mem Prod.fst ha
        rw [hax] at hmem2
        exact hnd.1 hmem2
      simp [finalContent, List.filter_cons, hrest]
    · have hw1 : ¬(w1 = n) := fun h => by
        have hmem2 : n ∈ ws.map Prod.fst := List.mem_map_of_mem Prod.fst hmem
        rw [← h] at hmem2
        exact hnd.1 hmem2
      have hstep : finalContent ((w1, w2) :: ws) n = finalContent ws n := by
        simp [finalContent, List.filter_cons, hw1]
      rw [hstep]
      exact ih hnd.2 hmem

/-- C4 (counterexample): a container with one SubNet that carries no
CmdGroup produces no files at all, so binary export does not produce
`2K` files for `K` total SubNets. -/
theorem bmodel2bin_cex :
    ¬ ((((BModel2Bin "model.bmodel" ⟨[⟨[⟨[⟨0, []⟩]⟩]⟩]⟩).map Prod.fst).dedup.length)
        = 2 * (BModel.allSubNets ⟨[⟨[⟨[⟨0, []⟩]⟩]⟩]⟩).length) := by decide

/-- C4 (amended): when every SubNet carries exactly one CmdGroup and the
subnet ids render to pairwise-distinct strings, binary export on a container
with `K` total SubNets produces exactly `2K` writes to `2K` distinct files
named `<path>.<id>.tiu.bin` / `<path>.<id>.dma.bin`, and the final content of
each file is, byte for byte, the raw buffer of its CmdGroup's corresponding
instruction category. -/
theorem bmodel2bin_export (path : String) (m : BModel)
    (h1 : ∀ s ∈ m.allSubNets, s.cmdGroups.length = 1)
    (h2 : (m.allSubNets.map fun s => toString s.id).Nodup) :
    (BModel2Bin path m).length = 2 * m.allSubNets.length ∧
    ((BModel2Bin path m).map Prod.fst).Nodup ∧
    ∀ s ∈ m.allSubNets, ∀ g ∈ s.cmdGroups,
      finalContent (BModel2Bin path m) (tiuFileName path s.id) = some g.tiu_cmd ∧
      finalContent (BModel2Bin path m) (dmaFileName path s.id) = some g.dma_cmd := by
  rw [BModel2Bin_eq_flatMap]
  have hnd := flat_writes_names_nodup path m.allSubNets h1 h2
  refine ⟨flat_writes_length path m.allSubNets h1, hnd, ?_⟩
  intro s hs g hg
  constructor
  · exact finalContent_of_nodup _ hnd
      (List.mem_flatMap.2 ⟨s, hs, List.mem_flatMap.2 ⟨g, hg, by simp⟩⟩)
  · exact finalContent_of_nodup _ hnd
      (List.mem_flatMap.2 ⟨s, hs, List.mem_flatMap.2 ⟨g, hg, by simp⟩⟩)

theorem bmodel2bin_export_witness :
    (∀ s ∈ (BModel.allSubNets ⟨[⟨[⟨[⟨0, [⟨[1, 2], [3]⟩]⟩, ⟨1, [⟨[9], []⟩]⟩]⟩]⟩]⟩),
      s.cmdGroups.length = 1) ∧
    ((BModel.allSubNets ⟨[⟨[⟨[⟨0, [⟨[1, 2], [3]⟩]⟩, ⟨1, [⟨[9], []⟩]⟩]⟩]⟩]⟩).map
      fun s => toString s.id).Nodup ∧
    ((BModel2Bin "m" ⟨[⟨[⟨[⟨0, [⟨[1, 2], [3]⟩]⟩, ⟨1, [⟨[9], []⟩]⟩]⟩]⟩]⟩).length =
      2 * (BModel.allSubNets ⟨[⟨[⟨[⟨0, [⟨[1, 2], [3]⟩]⟩, ⟨1, [⟨[9], []⟩]⟩]⟩]⟩]⟩).length ∧
    ((BModel2Bin "m" ⟨[⟨[⟨[⟨0, [⟨[1, 2], [3]⟩]⟩, ⟨1, [⟨[9], []⟩]⟩]⟩]⟩]⟩).map Prod.fst).Nodup ∧
    ∀ s ∈ (BModel.allSubNets ⟨[⟨[⟨[⟨0, [⟨[1, 2], [3]⟩]⟩, ⟨1, [⟨[9], []⟩]⟩]⟩]⟩]⟩),
      ∀ g ∈ s.cmdGroups,
      finalContent (BModel2Bin "m" ⟨[⟨[⟨[⟨0, [⟨[1, 2], [3]⟩]⟩, ⟨1, [⟨[9], []⟩]⟩]⟩]⟩]⟩)
        (tiuFileName "m" s.id) = some g.tiu_cmd ∧
      finalContent (BModel2Bin "m" ⟨[⟨[⟨[⟨0, [⟨[1, 2], [3]⟩]⟩, ⟨1, [⟨[9], []⟩]⟩]⟩]⟩]⟩)
        (dmaFileName "m" s.id) = some g.dma_cmd) :=
  ⟨by decide, by decide,
    bmodel2bin_export "m" ⟨[⟨[⟨[⟨0, [⟨[1, 2], [3]⟩]⟩, ⟨1, [⟨[9], []⟩]⟩]⟩]⟩]⟩
      (by decide) (by decide)⟩

section SelfDiff

variable {α : Type} [DecidableEq α]

theorem goodPair_iff {a : List α} {i j : Nat} :
    goodPair a i j = true ↔
      ∃ x, a[i]? = some x ∧ a[j]? = some x ∧ isPopular a x = false := by
  unfold goodPair
  cases hai : a[i]? <;> cases haj : a[j]? <;> simp
  exact fun _ => ⟨Eq.symm, Eq.symm⟩

theorem goodPair_left {a : List α} {i j : Nat} (h : goodPair a i j = true) :
    goodPair a i i = true := by
  obtain ⟨x, hx, _, hp⟩ := goodPair_iff.1 h
  exact goodPair_iff.2 ⟨x, hx, hx, hp⟩

theorem goodPair_right {a : List α} {i j : Nat} (h : goodPair a i j = true) :
    goodPair a j j = true := by
  obtain ⟨x, _, hx, hp⟩ := goodPair_iff.1 h
  exact goodPair_iff.2 ⟨x, hx, hx, hp⟩

theorem runEnd_zero_of_not_good {a : List α} {i j : Nat}
    (h : goodPair a i j = false) : runEnd a i j = 0 := by
  cases i <;> simp [runEnd, h]

theorem runEnd_le_left {a : List α} : ∀ i j, runEnd a i j ≤ i + 1 := by
  intro i
  induction i with
  | zero => intro j; rw [runEnd]; split <;> omega
  | succ i ih =>
    intro j
    rw [runEnd]
    split
    · split
      · omega
      · have := ih (j - 1); omega
    · omega

theorem runEnd_le_right {a : List α} : ∀ i j, runEnd a i j ≤ j + 1 := by
  intro i
  induction i with
  | zero => intro j; rw [runEnd]; split <;> omega
  | succ i ih =>
    intro j
    rw [runEnd]
    split
    · split
      · omega
      · next hj => have := ih (j - 1); omega
    · omega

theorem diag_succ {a : List α} {m : Nat} (h : goodPair a (m + 1) (m + 1) = true) :
    diag a (m + 1) = diag a m + 1 := by
  unfold diag
  rw [runEnd]
  simp [h]

theorem runEnd_le_diag {a : List α} : ∀ i j, runEnd a i j ≤ diag a (min i j) := by
  intro i
  induction i with
  | zero =>
    intro j
    rw [runEnd]
    split
    · next hg =>
      have h0 : goodPair a 0 0 = true := goodPair_left hg
      rw [Nat.zero_min]
      simp [diag, runEnd, h0]
    · omega
  | succ i ih =>
    intro j
    rw [runEnd]
    split
    · next hg =>
      split
      · next hj =>
        subst hj
        have h0 : goodPair a 0 0 = true := goodPair_right hg
        rw [Nat.min_zero]
        simp [diag, runEnd, h0]
      · next hj =>
        obtain ⟨j', rfl⟩ := Nat.exists_eq_succ_of_ne_zero hj
        have hx := ih j'
        have hmin : min (i + 1) (j' + 1) = min i j' + 1 := Nat.succ_min_succ i j'
        have hgood : goodPair a (min i j' + 1) (min i j' + 1) = true := by
          obtain ⟨x, hxi, hxj, hp⟩ := goodPair_iff.1 hg
          rcases Nat.le_total i j' with hle | hle
          · rw [min_eq_left hle]
            exact goodPair_iff.2 ⟨x, hxi, hxi, hp⟩
          · rw [min_eq_right hle]
            exact goodPair_iff.2 ⟨x, hxj, hxj, hp⟩
        rw [hmin, diag_succ hgood]
        simp only [Nat.succ_sub_one]
        omega
    · omega

theorem diag_le_maxDiagB {a : List α} : ∀ r i, i < r → diag a i ≤ maxDiagB a r := by
  intro r
  induction r with
  | zero => intro i h; omega
  | succ r ih =>
    intro i h
    rw [maxDiagB]
    rcases Nat.lt_or_ge i r with h' | h'
    · exact le_trans (ih i h') (le_max_left _ _)
    · have : i = r := by omega
      subst this
      exact le_max_right _ _

theorem maxDiagB_mono {a : List α} {r r' : Nat} (h : r ≤ r') :
    maxDiagB a r ≤ maxDiagB a r' := by
  induction r' with
  | zero => have : r = 0 := by omega
            subst this; exact le_refl _
  | succ r' ih =>
    rcases Nat.lt_or_ge r (r' + 1) with h' | h'
    · have hr : r ≤ r' := by omega
      exact le_trans (ih hr) (by rw [maxDiagB]; exact le_max_left _ _)
    · have : r = r' + 1 := by omega
      subst this; exact le_refl _

theorem mem_b2j_good {a : List α} {r j : Nat} {x : α} (hr : a[r]? = some x)
    (hj : j ∈ b2j a x) : j < a.length ∧ goodPair a r j = true := by
  unfold b2j at hj
  split at hj
  · simp at hj
  · next hpop =>
    rw [Bool.not_eq_true] at hpop
    unfold positionsIn at hj
    rw [List.mem_filter, List.mem_range] at hj
    obtain ⟨hjl, hjx⟩ := hj
    rw [decide_eq_true_eq] at hjx
    exact ⟨hjl, goodPair_iff.2 ⟨x, hr, hjx, hpop⟩⟩

theorem self_mem_b2j {a : List α} {r : Nat} {x : α} (hr : a[r]? = some x)
    (hpop : isPopular a x = false) : r ∈ b2j a x := by
  unfold b2j
  rw [if_neg (by rw [hpop]; simp)]
  unfold positionsIn
  rw [List.mem_filter, List.mem_range]
  obtain ⟨hlt, _⟩ := List.getElem?_eq_some.1 hr
  exact ⟨hlt, by rw [decide_eq_true_eq]; exact hr⟩

theorem not_good_of_notMem_b2j {a : List α} {r j : Nat} {x : α}
    (hr : a[r]? = some x) (hj : j ∉ b2j a x) : goodPair a r j = false := by
  rw [Bool.eq_false_iff]
  intro hg
  obtain ⟨y, hy, hyj, hp⟩ := goodPair_iff.1 hg
  rw [hr] at hy
  injection hy with hy
  subst hy
  exact hj (by
    unfold b2j
    rw [if_neg (by rw [hp]; simp)]
    unfold positionsIn
    rw [List.mem_filter, List.mem_range]
    obtain ⟨hlt, _⟩ := List.getElem?_eq_some.1 hyj
    exact ⟨hlt, by rw [decide_eq_true_eq]; exact hyj⟩)

theorem b2j_sorted (a : List α) (x : α) : (b2j a x).Pairwise (· < ·) := by
  unfold b2j
  split
  · exact List.Pairwise.nil
  · exact List.Pairwise.filter _ (List.pairwise_lt_range _)

theorem map_step {a : List α} {r : Nat} {m : Nat → Nat} {j : Nat} {js : List Nat}
    (g : Nat → Nat)
    (h3 : ∀ j0, g j0 = if j0 ∈ js then runEnd a r j0 else updNat m j (runEnd a r j) j0) :
    ∀ j0, g j0 = if j0 ∈ j :: js then runEnd a r j0 else m j0 := by
  intro j0
  rw [h3 j0]
  by_cases hj0 : j0 ∈ js
  · rw [if_pos hj0, if_pos (List.mem_cons_of_mem _ hj0)]
  · by_cases hjj : j0 = j
    · subst hjj
      rw [if_neg hj0, if_pos (List.mem_cons_self _ _)]
      unfold updNat
      rw [if_pos rfl]
    · rw [if_neg hj0, if_neg (by
        intro hh
        rcases List.mem_cons.1 hh with h | h
        · exact hjj h
        · exact hj0 h)]
      unfold updNat
      rw [if_neg hjj]

/-- The inner loop of `find_longest_match`, run on `a` against itself over a
(suffix of the) `b2j` index of row `r`'s element: the `j2len` map it builds
is exactly `runEnd a r ·` on the processed columns, and the best triple
stays on the diagonal with size `maxDiagB a (r+1)` once the diagonal column
has been processed. -/
theorem flmInner_go {a : List α} {r : Nat} {x : α}
    (hrx : a[r]? = some x)
    (j2 : Nat → Nat)
    (Hj2 : ∀ j, j2 j = if r = 0 then 0 else runEnd a (r - 1) j) :
    ∀ (js : List Nat) (m : Nat → Nat) (p s : Nat),
      (∀ j ∈ js, j ∈ b2j a x) →
      js.Pairwise (· < ·) →
      p + s ≤ r + 1 →
      ((r ∈ js ∧ s = maxDiagB a r) ∨ (r ∉ js ∧ s = maxDiagB a (r + 1))) →
      ∃ p', (flmInner j2 r 0 a.length js m (p, p, s)).2 =
              (p', p', maxDiagB a (r + 1)) ∧
            p' + maxDiagB a (r + 1) ≤ r + 1 ∧
            ∀ j, (flmInner j2 r 0 a.length js m (p, p, s)).1 j =
              if j ∈ js then runEnd a r j else m j := by
  have hk : ∀ j, j ∈ b2j a x → (if j = 0 then 0 else j2 (j - 1)) + 1 = runEnd a r j := by
    intro j hj
    obtain ⟨hjL, hg⟩ := mem_b2j_good hrx hj
    by_cases hj0 : j = 0
    · subst hj0
      rw [if_pos rfl]
      cases r <;> simp [runEnd, hg]
    · obtain ⟨j', rfl⟩ := Nat.exists_eq_succ_of_ne_zero hj0
      rw [if_neg (by omega), Hj2 (j' + 1 - 1)]
      simp only [Nat.add_sub_cancel]
      by_cases hr0 : r = 0
      · subst hr0
        simp [runEnd, hg]
      · obtain ⟨r', rfl⟩ := Nat.exists_eq_succ_of_ne_zero hr0
        rw [if_neg (by omega)]
        rw [runEnd]
        rw [if_pos hg, if_neg (by omega)]
        rfl
  intro js
  induction js with
  | nil =>
    intro m p s _ _ hps hdisj
    rcases hdisj with ⟨habs, _⟩ | ⟨_, hs⟩
    · simp at habs
    · subst hs
      exact ⟨p, rfl, hps, fun j => by simp [flmInner]⟩
  | cons j js ih =>
    intro m p s hmem hsort hps hdisj
    have hjb : j ∈ b2j a x := hmem j (List.mem_cons_self _ _)
    obtain ⟨hjL, hjg⟩ := mem_b2j_good hrx hjb
    have hstep : flmInner j2 r 0 a.length (j :: js) m (p, p, s) =
        flmInner j2 r 0 a.length js (updNat m j (runEnd a r j))
          (if s < runEnd a r j then
            (r + 1 - runEnd a r j, j + 1 - runEnd a r j, runEnd a r j)
          else (p, p, s)) := by
      rw [flmInner, if_neg (by omega), if_neg (by omega), hk j hjb]
    rw [hstep]
    have hmem' : ∀ j' ∈ js, j' ∈ b2j a x := fun j' hj' => hmem j' (List.mem_cons_of_mem _ hj')
    have hsort' : js.Pairwise (· < ·) := hsort.of_cons
    rcases Nat.lt_trichotomy j r with hjr | hjr | hjr
    · -- column left of the diagonal: its run is bounded by an earlier diagonal
      have hrun : runEnd a r j ≤ diag a (min r j) := runEnd_le_diag r j
      rw [min_eq_right (le_of_lt hjr)] at hrun
      have hdle : diag a j ≤ maxDiagB a r := diag_le_maxDiagB r j hjr
      have hsge : maxDiagB a r ≤ s := by
        rcases hdisj with ⟨_, hs⟩ | ⟨_, hs⟩
        · omega
        · subst hs
          exact maxDiagB_mono (Nat.le_succ r)
      rw [if_neg (by omega)]
      have hdisj' : (r ∈ js ∧ s = maxDiagB a r) ∨ (r ∉ js ∧ s = maxDiagB a (r + 1)) := by
        rcases hdisj with ⟨hin, hs⟩ | ⟨hout, hs⟩
        · left
          refine ⟨?_, hs⟩
          rcases List.mem_cons.1 hin with h | h
          · omega
          · exact h
        · right
          exact ⟨fun h => hout (List.mem_cons_of_mem _ h), hs⟩
      obtain ⟨p', h1, h2, h3⟩ := ih (updNat m j (runEnd a r j)) p s hmem' hsort' hps hdisj'
      exact ⟨p', h1, h2, map_step _ h3⟩
    · -- the diagonal column itself
      subst hjr
      have hs : s = maxDiagB a j := by
        rcases hdisj with ⟨_, hs⟩ | ⟨hout, _⟩
        · exact hs
        · exact absurd (List.mem_cons_self _ _) hout
      have hnotin : j ∉ js := by
        intro hmm
        have := List.rel_of_pairwise_cons hsort hmm
        omega
      by_cases hup : s < runEnd a j j
      · rw [if_pos hup]
        have hle : runEnd a j j ≤ j + 1 := runEnd_le_left j j
        have hmax : maxDiagB a (j + 1) = runEnd a j j := by
          rw [maxDiagB]
          have : maxDiagB a j ≤ diag a j := by
            unfold diag
            omega
          rw [Nat.max_eq_right this]
          rfl
        obtain ⟨p', h1, h2, h3⟩ := ih (updNat m j (runEnd a j j))
          (j + 1 - runEnd a j j) (runEnd a j j) hmem' hsort' (by omega)
          (Or.inr ⟨hnotin, hmax.symm⟩)
        exact ⟨p', h1, h2, map_step _ h3⟩
      · rw [if_neg hup]
        have hmax : maxDiagB a (j + 1) = s := by
          rw [maxDiagB]
          have : diag a j ≤ maxDiagB a j := by
            unfold diag
            omega
          rw [Nat.max_eq_left this, hs]
        obtain ⟨p', h1, h2, h3⟩ := ih (updNat m j (runEnd a j j)) p s hmem' hsort'
          hps (Or.inr ⟨hnotin, hmax.symm⟩)
        exact ⟨p', h1, h2, map_step _ h3⟩
    · -- column right of the diagonal: processed after it, can never win
      have hnotin_cons : r ∉ j :: js := by
        intro hmm
        rcases List.mem_cons.1 hmm with h | h
        · omega
        · have := List.rel_of_pairwise_cons hsort h
          omega
      have hs : s = maxDiagB a (r + 1) := by
        rcases hdisj with ⟨hin, _⟩ | ⟨_, hs⟩
        · exact absurd hin hnotin_cons
        · exact hs
      have hrun : runEnd a r j ≤ diag a (min r j) := runEnd_le_diag r j
      rw [min_eq_left (le_of_lt hjr)] at hrun
      have hdle : diag a r ≤ maxDiagB a (r + 1) := diag_le_maxDiagB (r + 1) r (by omega)
      rw [if_neg (by omega)]
      obtain ⟨p', h1, h2, h3⟩ := ih (updNat m j (runEnd a r j)) p s hmem' hsort' hps
        (Or.inr ⟨fun h => hnotin_cons (List.mem_cons_of_mem _ h), hs⟩)
      exact ⟨p', h1, h2, map_step _ h3⟩

/-- The row loop of `find_longest_match` on `a` against itself: starting from
a diagonal best of size `maxDiagB a r` and the row-`r-1` run map, it ends in
a diagonal best of size `maxDiagB a a.length`. -/
theorem flmRows_self (a : List α) :
    ∀ (cnt r : Nat) (j2 : Nat → Nat) (p s : Nat),
      cnt + r = a.length →
      (∀ j, j2 j = if r = 0 then 0 else runEnd a (r - 1) j) →
      s = maxDiagB a r →
      p + s ≤ r →
      ∃ p', (flmRows (b2j a) a 0 a.length cnt r j2 (p, p, s)).2 =
              (p', p', maxDiagB a a.length) ∧
            p' + maxDiagB a a.length ≤ a.length := by
  intro cnt
  induction cnt with
  | zero =>
    intro r j2 p s hcnt _ hs hp
    have hr : r = a.length := by omega
    subst hr
    subst hs
    exact ⟨p, rfl, hp⟩
  | succ cnt ih =>
    intro r j2 p s hcnt Hj2 hs hp
    have hrL : r < a.length := by omega
    have hrx : a[r]? = some a[r] := List.getElem?_eq_getElem hrL
    rw [flmRows]
    simp only [hrx]
    by_cases hpop : isPopular a a[r] = true
    · -- popular element: empty index list, the row is a no-op
      have hb : b2j a a[r] = [] := by
        unfold b2j
        rw [if_pos hpop]
      rw [hb]
      have hrun0 : ∀ j, runEnd a r j = 0 := by
        intro j
        apply runEnd_zero_of_not_good
        rw [Bool.eq_false_iff]
        intro hg
        obtain ⟨y, hy, _, hpy⟩ := goodPair_iff.1 hg
        rw [hrx] at hy
        injection hy with hy
        subst hy
        rw [hpop] at hpy
        simp at hpy
      have hmd : maxDiagB a (r + 1) = maxDiagB a r := by
        rw [maxDiagB]
        have hd0 : diag a r = 0 := hrun0 r
        rw [hd0]
        simp
      simp only [flmInner]
      exact ih (r + 1) (fun _ => 0) p s (by omega)
        (fun j => by
          rw [if_neg (show ¬(r + 1 = 0) by omega)]
          simp only [Nat.add_sub_cancel]
          exact (hrun0 j).symm)
        (by rw [hs, hmd]) (by omega)
    · -- ordinary element: run the inner-loop lemma over the full index list
      rw [Bool.not_eq_true] at hpop
      have hrmem : r ∈ b2j a a[r] := self_mem_b2j hrx hpop
      obtain ⟨p', h1, h2, h3⟩ := flmInner_go hrx j2 Hj2 (b2j a a[r]) (fun _ => 0) p s
        (fun j hj => hj) (b2j_sorted a a[r]) (by omega) (Or.inl ⟨hrmem, by rw [hs]⟩)
      rw [h1]
      exact ih (r + 1) _ p' (maxDiagB a (r + 1)) (by omega)
        (fun j => by
          rw [if_neg (show ¬(r + 1 = 0) by omega)]
          simp only [Nat.add_sub_cancel]
          rw [h3 j]
          by_cases hj : j ∈ b2j a a[r]
          · rw [if_pos hj]
          · rw [if_neg hj,
              runEnd_zero_of_not_good (not_good_of_notMem_b2j hrx hj)])
        rfl h2

theorem eqSelAt_self_true {a : List α} {i : Nat} (h : i < a.length) :
    eqSelAt a a (fun y => !bjunk y) i i = true := by
  unfold eqSelAt
  rw [List.getElem?_eq_getElem h]
  simp [bjunk, List.getElem?_eq_getElem h]

theorem extendBack_self_diag (a : List α) :
    ∀ (p s : Nat), p + s ≤ a.length →
      extendBack a a 0 0 (fun y => !bjunk y) p (p, p, s) = (0, 0, p + s) := by
  intro p
  induction p with
  | zero =>
    intro s _
    simp [extendBack]
  | succ p ih =>
    intro s h
    rw [extendBack]
    have hpL : p < a.length := by omega
    rw [if_pos (by
      simp only [Nat.add_sub_cancel]
      simp [eqSelAt_self_true hpL])]
    simp only [Nat.add_sub_cancel]
    rw [ih (s + 1) (by omega)]
    have : p + (s + 1) = p + 1 + s := by omega
    rw [this]

theorem extendFwd_self_diag (a : List α) :
    ∀ (fuel s : Nat), fuel + s = a.length →
      extendFwd a a a.length a.length (fun y => !bjunk y) 0 0 fuel s = a.length := by
  intro fuel
  induction fuel with
  | zero =>
    intro s h
    simp only [extendFwd]
    omega
  | succ fuel ih =>
    intro s h
    rw [extendFwd]
    have hsL : s < a.length := by omega
    rw [if_pos (by simp [Nat.zero_add, hsL, eqSelAt_self_true hsL])]
    exact ih (s + 1) (by omega)

theorem eqSelAt_junk (a b : List α) (i j : Nat) :
    eqSelAt a b (fun y => bjunk y) i j = false := by
  unfold eqSelAt bjunk
  cases b[j]? <;> simp

theorem extendBack_junk (a b : List α) (alo blo : Nat) :
    ∀ fuel st, extendBack a b alo blo (fun y => bjunk y) fuel st = st := by
  intro fuel st
  cases fuel with
  | zero => rfl
  | succ f =>
    obtain ⟨i, j, s⟩ := st
    rw [extendBack, if_neg (by simp [eqSelAt_junk])]

theorem extendFwd_junk (a b : List α) (ahi bhi bi bj : Nat) :
    ∀ fuel s, extendFwd a b ahi bhi (fun y => bjunk y) bi bj fuel s = s := by
  intro fuel s
  cases fuel with
  | zero => rfl
  | succ f =>
    rw [extendFwd, if_neg (by simp [eqSelAt_junk])]

/-- `find_longest_match` of `a` against itself over the full ranges returns
the whole sequence as one match. -/
theorem find_longest_match_self (a : List α) :
    find_longest_match a a 0 a.length 0 a.length = (0, 0, a.length) := by
  obtain ⟨p, h1, h2⟩ := flmRows_self a a.length 0 (fun _ => 0) 0 0
    (by omega) (fun j => by simp) rfl (by omega)
  unfold find_longest_match
  simp only [Nat.sub_zero]
  rw [h1]
  simp only
  rw [extendBack_self_diag a p (maxDiagB a a.length) h2]
  simp only [Nat.sub_zero, Nat.zero_add]
  rw [extendFwd_self_diag a (a.length - (p + maxDiagB a a.length))
    (p + maxDiagB a a.length) (by omega)]
  rw [extendBack_junk]
  rw [extendFwd_junk]

theorem gmbQueue_nil (a b : List α) :
    ∀ fuel acc, gmbQueue a b fuel [] acc = acc := by
  intro fuel acc
  cases fuel <;> rfl

/-- `get_matching_blocks` of `a` against itself: the whole sequence as one
block (when nonempty), followed by the sentinel. -/
theorem get_matching_blocks_self (a : List α) :
    get_matching_blocks a a =
      if a.length = 0 then [(0, 0, 0)]
      else [(0, 0, a.length), (a.length, a.length, 0)] := by
  unfold get_matching_blocks
  dsimp only
  have hq : gmbQueue a a (a.length + a.length + 1) [(0, a.length, 0, a.length)] [] =
      if a.length = 0 then [] else [(0, 0, a.length)] := by
    rw [gmbQueue]
    rw [find_longest_match_self]
    dsimp only
    by_cases hL : a.length = 0
    · rw [if_neg (show ¬(a.length ≠ 0) by omega), if_pos hL]
      exact gmbQueue_nil a a _ _
    · rw [if_pos (show a.length ≠ 0 from hL), if_neg hL]
      rw [if_neg (show ¬((0 : Nat) < 0 ∧ (0 : Nat) < 0) by omega),
        if_neg (show ¬(0 + a.length < a.length ∧ 0 + a.length < a.length) by omega)]
      simp only [List.nil_append]
      exact gmbQueue_nil a a _ _
  rw [hq]
  by_cases hL : a.length = 0
  · rw [if_pos hL, if_pos hL]
    simp [sortBlocks, mergeAdjacent, hL]
  · rw [if_neg hL, if_neg hL]
    have hsort : sortBlocks [(0, 0, a.length)] = [(0, 0, a.length)] := rfl
    rw [hsort]
    simp [mergeAdjacent, hL]

/-- `get_opcodes` of `a` against itself: a single `equal` opcode (or nothing
when `a` is empty). -/
theorem get_opcodes_self (a : List α) :
    get_opcodes a a =
      if a.length = 0 then []
      else [⟨"equal", 0, a.length, 0, a.length⟩] := by
  unfold get_opcodes
  rw [get_matching_blocks_self]
  by_cases hL : a.length = 0
  · rw [if_pos hL, if_pos hL]
    simp [opcodesLoop]
  · rw [if_neg hL, if_neg hL]
    rw [opcodesLoop]
    rw [if_neg (show ¬((0 : Nat) < 0 ∧ (0 : Nat) < 0) by omega),
      if_neg (show ¬((0 : Nat) < 0) by omega), if_neg (show ¬((0 : Nat) < 0) by omega),
      if_pos hL]
    rw [opcodesLoop]
    rw [if_neg (show ¬(0 + a.length < a.length ∧ 0 + a.length < a.length) by omega),
      if_neg (show ¬(0 + a.length < a.length) by omega),
      if_neg (show ¬(0 + a.length < a.length) by omega),
      if_neg (show ¬((0 : Nat) ≠ 0) by omega)]
    simp [opcodesLoop]

/-- A single `equal` opcode spanning at most `n + n` lines produces no group. -/
theorem groupLoop_single_equal (n : Nat) (c : Opcode) (htag : c.tag = "equal")
    (hw : c.i2 - c.i1 ≤ n + n) : groupLoop n [] [c] = [] := by
  rw [groupLoop]
  rw [if_neg (show ¬(c.tag = "equal" ∧ n + n < c.i2 - c.i1) by
    rintro ⟨_, h⟩; omega)]
  rw [groupLoop]
  rw [if_neg (show ¬(([] ++ [c] : List Opcode) ≠ [] ∧
      ¬(([] ++ [c] : List Opcode).length = 1 ∧
        ([] ++ [c] : List Opcode).head?.map Opcode.tag = some "equal")) by
    rintro ⟨_, h⟩
    exact h ⟨by simp, by simp [htag]⟩)]

/-- `get_grouped_opcodes` of `a` against itself yields no group at all, for
every context-line count. -/
theorem get_grouped_opcodes_self (a : List α) (n : Nat) :
    get_grouped_opcodes a a n = [] := by
  unfold get_grouped_opcodes
  dsimp only
  rw [get_opcodes_self]
  by_cases hL : a.length = 0
  · rw [if_pos hL]
    rw [if_pos rfl]
    rw [fixupHead, if_pos rfl]
    rw [fixupLast, if_pos rfl]
    apply groupLoop_single_equal n _ rfl
    dsimp only
    have h1 : min 1 (max 0 (1 - n) + n) ≤ max 0 (1 - n) + n := Nat.min_le_right _ _
    omega
  · rw [if_neg hL]
    rw [if_neg (by simp)]
    rw [fixupHead, if_pos rfl]
    rw [fixupLast, if_pos rfl]
    apply groupLoop_single_equal n _ rfl
    dsimp only
    have h1 : min a.length (max 0 (a.length - n) + n) ≤ max 0 (a.length - n) + n :=
      Nat.min_le_right _ _
    omega

end SelfDiff

/-- C1: for every pair of identical operation sequences (and any file names,
any context-line count, and any format accepted by the `fmt_op` table),
`unified_diff` emits nothing at all: no `---`/`+++` file headers, no hunk
headers, and no lines.  In particular diffing a container's decoded stream
against itself yields zero hunks for every subgraph pair. -/
theorem unified_diff_identical (a b : List Op) (hab : a = b)
    (fromfile tofile : String) (n : Nat) (format : String)
    (hfmt : (fmt_op format).isSome = true) :
    unified_diff a b fromfile tofile n format = .ok [] := by
  subst hab
  obtain ⟨f, hf⟩ := Option.isSome_iff_exists.1 hfmt
  unfold unified_diff
  rw [hf, get_grouped_opcodes_self]

theorem unified_diff_identical_witness :
    ([⟨"op0", "attr0", [1, 0]⟩] : List Op) = [⟨"op0", "attr0", [1, 0]⟩] ∧
    (fmt_op "mlir").isSome = true ∧
    unified_diff [⟨"op0", "attr0", [1, 0]⟩] [⟨"op0", "attr0", [1, 0]⟩]
      "fa" "fb" 3 "mlir" = .ok [] :=
  ⟨rfl, rfl, unified_diff_identical _ _ rfl "fa" "fb" 3 "mlir" rfl⟩

deriving instance DecidableEq for Except

theorem comparePairs_eq (pathA pathB : String) (n : Nat) {format : String}
    {f : Op → String} (hf : fmt_op format = some f) :
    ∀ pairs : List (SubGraph × SubGraph),
      comparePairs pathA pathB n format pairs =
        .ok (pairs.filterMap (pairBlock pathA pathB n format),
             pairs.all fun p =>
               decide (unified_diff p.1.2 p.2.2 pathA pathB n format = .ok [])) := by
  intro pairs
  induction pairs with
  | nil => rfl
  | cons p rest ih =>
    obtain ⟨pa, pb⟩ := p
    have hd : ∃ d, unified_diff pa.2 pb.2 pathA pathB n format = .ok d := by
      unfold unified_diff
      rw [hf]
      cases get_grouped_opcodes pa.2 pb.2 n with
      | nil => exact ⟨[], rfl⟩
      | cons g gs => exact ⟨_, rfl⟩
    obtain ⟨d, hd⟩ := hd
    rw [comparePairs, hd, ih]
    dsimp only
    cases d with
    | nil =>
      rw [if_neg (by simp)]
      simp [pairBlock, hd]
    | cons x xs =>
      rw [if_pos (by simp)]
      simp [pairBlock, hd]

/-- C2: with two container paths, if every positionally-paired subgraph
produces no diff output, the tool prints that the two files are the same and
exits 0; if any pair produces diff output, it prints each non-empty diff
wrapped in a pseudo-function block labeled by the pair's index path and
exits 1. -/
theorem bmodel_compare_cli (ma mb : List SubGraph) (pathA pathB : String)
    (n : Nat) (format : String) (f : Op → String) (hf : fmt_op format = some f) :
    ((∀ p ∈ ma.zip mb, unified_diff p.1.2 p.2.2 pathA pathB n format = .ok []) →
      bmodelCompare ma mb pathA pathB n format =
        .ok ([sameMessage pathA pathB], 0)) ∧
    ((∃ p ∈ ma.zip mb, unified_diff p.1.2 p.2.2 pathA pathB n format ≠ .ok []) →
      bmodelCompare ma mb pathA pathB n format =
        .ok ((ma.zip mb).filterMap (pairBlock pathA pathB n format), 1)) := by
  have hcp := comparePairs_eq pathA pathB n hf (ma.zip mb)
  constructor
  · intro hall
    unfold bmodelCompare
    rw [hcp]
    have hallb : ((ma.zip mb).all fun p =>
        decide (unified_diff p.1.2 p.2.2 pathA pathB n format = .ok [])) = true := by
      rw [List.all_eq_true]
      intro p hp
      rw [decide_eq_true_eq]
      exact hall p hp
    have hblocks : (ma.zip mb).filterMap (pairBlock pathA pathB n format) = [] := by
      rw [List.filterMap_eq_nil_iff]
      intro p hp
      unfold pairBlock
      rw [hall p hp]
    dsimp only
    rw [hallb, hblocks]
    simp
  · rintro ⟨p, hp, hne⟩
    unfold bmodelCompare
    rw [hcp]
    have hallb : ((ma.zip mb).all fun p =>
        decide (unified_diff p.1.2 p.2.2 pathA pathB n format = .ok [])) = false := by
      cases hb : (ma.zip mb).all fun p =>
          decide (unified_diff p.1.2 p.2.2 pathA pathB n format = .ok []) with
      | false => rfl
      | true =>
        exfalso
        have := List.all_eq_true.1 hb p hp
        rw [decide_eq_true_eq] at this
        exact hne this
    dsimp only
    rw [hallb]
    simp

theorem bmodel_compare_cli_witness :
    fmt_op "mlir" = some fmtMlir ∧
    (((∀ p ∈ ([([0], [(⟨"m0", "a0", [1]⟩ : Op)])] : List SubGraph).zip
          ([([0], [(⟨"m0", "a0", [1]⟩ : Op)])] : List SubGraph),
        unified_diff p.1.2 p.2.2 "fa" "fb" 3 "mlir" = .ok []) →
      bmodelCompare [([0], [(⟨"m0", "a0", [1]⟩ : Op)])]
          [([0], [(⟨"m0", "a0", [1]⟩ : Op)])] "fa" "fb" 3 "mlir" =
        .ok ([sameMessage "fa" "fb"], 0)) ∧
    ((∃ p ∈ ([([0], [(⟨"m0", "a0", [1]⟩ : Op)])] : List SubGraph).zip
          ([([0], [(⟨"m0", "a0", [1]⟩ : Op)])] : List SubGraph),
        unified_diff p.1.2 p.2.2 "fa" "fb" 3 "mlir" ≠ .ok []) →
      bmodelCompare [([0], [(⟨"m0", "a0", [1]⟩ : Op)])]
          [([0], [(⟨"m0", "a0", [1]⟩ : Op)])] "fa" "fb" 3 "mlir" =
        .ok ((([([0], [(⟨"m0", "a0", [1]⟩ : Op)])] : List SubGraph).zip
            ([([0], [(⟨"m0", "a0", [1]⟩ : Op)])] : List SubGraph)).filterMap
          (pairBlock "fa" "fb" 3 "mlir"), 1))) :=
  ⟨rfl, bmodel_compare_cli [([0], [⟨"m0", "a0", [1]⟩])] [([0], [⟨"m0", "a0", [1]⟩])]
    "fa" "fb" 3 "mlir" fmtMlir rfl⟩

theorem zip_take_min {γ δ : Type} :
    ∀ (l1 : List γ) (l2 : List δ),
      (l1.take (min l1.length l2.length)).zip (l2.take (min l1.length l2.length)) =
        l1.zip l2
  | [], l2 => by simp
  | x :: xs, [] => by simp
  | x :: xs, y :: ys => by
    rw [List.length_cons, List.length_cons, Nat.succ_min_succ, List.take_succ_cons,
      List.take_succ_cons, List.zip_cons_cons, List.zip_cons_cons, zip_take_min xs ys]

/-- C9: in the two-file comparison path, only the first
`min (length a) (length b)` positional subgraph pairs are diffed — the
surplus subgraphs of the longer container are never examined and cannot
affect the printed output, the "same" verdict, or the exit status. -/
theorem bmodel_compare_truncates (ma mb : List SubGraph) (pathA pathB : String)
    (n : Nat) (format : String) :
    bmodelCompare ma mb pathA pathB n format =
      bmodelCompare (ma.take (min ma.length mb.length))
        (mb.take (min ma.length mb.length)) pathA pathB n format := by
  unfold bmodelCompare
  rw [zip_take_min]

end TpuMlir
